import Mathlib

/-!
Verification development for the Beyblade combination scraper
(src/beyblade_scraper.py).

Modelling conventions, stated once:

* Python dicts with string keys are modelled as association lists
  `List (String × String)` in iteration (= insertion) order; a real dict
  has unique keys, which is stated as a hypothesis where it matters.
* Python `datetime` values are modelled as integers (timestamps with a
  total order); forum page numbers are integers.
* The HTTP fetch collaborator and the HTML-to-text / HTML-to-dates
  collaborators (`requests`, `BeautifulSoup`) are modelled as oracle
  functions passed explicitly, exactly as the spec declares them external:
  `fetch : Int → String` (empty string = fetch failure, mirroring
  `fetch_page` returning `""` on `RequestException`), and
  `Int → List Int` for the composition of `fetch_page` with
  `extract_dates_from_page` (empty list = failed fetch or no parsable
  timestamps; both branches of `find_page_for_date` just continue).
* Character classes are the ASCII ones used by the source regex:
  `[A-Za-z]`, `\d`, `[ \t]`, and Python `\s` = space, tab, newline,
  carriage return, vertical tab, form feed.
-/

/-! ## Translation table (`translate_suffix`, lines 56-77) -/

/-- Model of Python `str.lower()` on ASCII strings: lowercase every
character. Defined on the character list so that it evaluates inside the
kernel. -/
def String.pyLower (s : String) : String := String.mk (s.data.map Char.toLower)

/-- Python `suffix in translations` plus `translations[suffix]` on an
association list: value of the first pair whose key equals `k` (a dict has
unique keys, so at most one pair can match). -/
def dict_get : List (String × String) → String → Option String
  | [], _ => none
  | kv :: rest, k => if kv.1 == k then some kv.2 else dict_get rest k

/-- The `for key, value in translations.items(): if key.lower() == suffix.lower(): return value`
loop of `translate_suffix` (lines 72-74): first case-insensitive match in
table iteration order. -/
def ci_scan (suffix : String) : List (String × String) → Option String
  | [] => none
  | kv :: rest =>
    if kv.1.pyLower == suffix.pyLower then some kv.2 else ci_scan suffix rest

/-- Transcription of `translate_suffix` (lines 56-77): exact case-sensitive
lookup first, then the case-insensitive scan, then the unchanged input. -/
def translate_suffix (suffix : String) (translations : List (String × String)) : String :=
  match dict_get translations suffix with
  | some v => v
  | none =>
    match ci_scan suffix translations with
    | some v => v
    | none => suffix

theorem dict_get_eq_find? (table : List (String × String)) (k : String) :
    dict_get table k = (table.find? (fun p => p.1 == k)).map (fun p => p.2) := by
  induction table with
  | nil => rfl
  | cons kv rest ih =>
    by_cases h : kv.1 == k
    · simp [dict_get, List.find?, h]
    · simp only [Bool.not_eq_true] at h
      simp [dict_get, List.find?, h, ih]

theorem ci_scan_eq_find? (suffix : String) (table : List (String × String)) :
    ci_scan suffix table
      = (table.find? (fun p => p.1.pyLower == suffix.pyLower)).map (fun p => p.2) := by
  induction table with
  | nil => rfl
  | cons kv rest ih =>
    by_cases h : kv.1.pyLower == suffix.pyLower
    · simp [ci_scan, List.find?, h]
    · simp only [Bool.not_eq_true] at h
      simp [ci_scan, List.find?, h, ih]

theorem dict_get_eq_some_mem {table : List (String × String)} {k v : String}
    (h : dict_get table k = some v) : ∃ p ∈ table, p.2 = v := by
  induction table with
  | nil => simp [dict_get] at h
  | cons kv rest ih =>
    rw [dict_get] at h
    split at h
    · exact ⟨kv, List.mem_cons_self kv rest, (Option.some_inj.mp h).symm ▸ rfl⟩
    · obtain ⟨p, hp, hv⟩ := ih h
      exact ⟨p, List.mem_cons_of_mem kv hp, hv⟩

theorem ci_scan_eq_some_mem {suffix : String} {table : List (String × String)} {v : String}
    (h : ci_scan suffix table = some v) : ∃ p ∈ table, p.2 = v := by
  induction table with
  | nil => simp [ci_scan] at h
  | cons kv rest ih =>
    rw [ci_scan] at h
    split at h
    · exact ⟨kv, List.mem_cons_self kv rest, (Option.some_inj.mp h).symm ▸ rfl⟩
    · obtain ⟨p, hp, hv⟩ := ih h
      exact ⟨p, List.mem_cons_of_mem kv hp, hv⟩

theorem dict_get_eq_none {table : List (String × String)} {k : String}
    (h : ∀ p ∈ table, p.1 ≠ k) : dict_get table k = none := by
  induction table with
  | nil => rfl
  | cons kv rest ih =>
    rw [dict_get]
    have hk : ¬(kv.1 == k) := by
      simpa using h kv (List.mem_cons_self kv rest)
    simp only [hk, if_false]
    exact ih fun p hp => h p (List.mem_cons_of_mem kv hp)

theorem ci_scan_eq_none {suffix : String} {table : List (String × String)}
    (h : ∀ p ∈ table, p.1.pyLower ≠ suffix.pyLower) : ci_scan suffix table = none := by
  induction table with
  | nil => rfl
  | cons kv rest ih =>
    rw [ci_scan]
    have hk : ¬(kv.1.pyLower == suffix.pyLower) := by
      simpa using h kv (List.mem_cons_self kv rest)
    simp only [hk, if_false]
    exact ih fun p hp => h p (List.mem_cons_of_mem kv hp)

/-- C4: for every translation table and suffix, `translate_suffix` first
does an exact case-sensitive lookup, otherwise returns the value of the
first case-insensitive key match in table iteration order, otherwise the
suffix unchanged. Stated via `List.find?`, whose result is the first match
in iteration order. -/
theorem translate_suffix_lookup_order (table : List (String × String)) (suffix : String) :
    translate_suffix suffix table =
      match table.find? (fun p => p.1 == suffix) with
      | some p => p.2
      | none =>
        match table.find? (fun p => p.1.pyLower == suffix.pyLower) with
        | some p => p.2
        | none => suffix := by
  rw [translate_suffix, dict_get_eq_find?, ci_scan_eq_find?]
  cases table.find? (fun p => p.1 == suffix) with
  | some p => rfl
  | none =>
    cases table.find? (fun p => p.1.pyLower == suffix.pyLower) with
    | some p => rfl
    | none => rfl

/-- C10: the result of `translate_suffix` is always either the input suffix
itself or a value stored in the table; the function is total and never
fabricates any other string. -/
theorem translate_suffix_conservative (table : List (String × String)) (suffix : String) :
    translate_suffix suffix table = suffix
      ∨ ∃ p ∈ table, translate_suffix suffix table = p.2 := by
  rw [translate_suffix]
  cases hd : dict_get table suffix with
  | some v =>
    obtain ⟨p, hp, hv⟩ := dict_get_eq_some_mem hd
    exact Or.inr ⟨p, hp, hv.symm⟩
  | none =>
    cases hc : ci_scan suffix table with
    | some v =>
      obtain ⟨p, hp, hv⟩ := ci_scan_eq_some_mem hc
      exact Or.inr ⟨p, hp, hv.symm⟩
    | none => exact Or.inl rfl

/-- C5: translation is idempotent whenever the translated result is not
itself a key needing further translation (no table key matches it even
case-insensitively). -/
theorem translate_suffix_idempotent (table : List (String × String)) (x : String)
    (h : ∀ p ∈ table, p.1.pyLower ≠ (translate_suffix x table).pyLower) :
    translate_suffix (translate_suffix x table) table = translate_suffix x table := by
  have hexact : ∀ p ∈ table, p.1 ≠ translate_suffix x table := by
    intro p hp he
    exact h p hp (he ▸ rfl)
  rw [translate_suffix, dict_get_eq_none hexact, ci_scan_eq_none h]

/-- Witness for C5 at a concrete table and suffix. -/
theorem translate_suffix_idempotent_witness :
    (∀ p ∈ [("R", "Rush")], p.1.pyLower ≠ (translate_suffix "R" [("R", "Rush")]).pyLower)
      ∧ translate_suffix (translate_suffix "R" [("R", "Rush")]) [("R", "Rush")]
          = translate_suffix "R" [("R", "Rush")] :=
  ⟨by decide, translate_suffix_idempotent [("R", "Rush")] "R" (by decide)⟩

/-! ## Temporal locator (`find_page_for_date`, lines 177-213)

The Python loop `for page_num in range(start_page, start_page - max_pages_to_check, -1)`
is a structural recursion on the number of probes left, with the probed
page decreasing by one each step. `dates_on` is the composition of
`fetch_page` with `extract_dates_from_page` (empty list = failed fetch or
page with no parsable timestamps; the code treats both with `continue`). -/

/-- The test one locator probe performs, lines 194-208 of the loop body:
a page with no dates is skipped (`continue`, here `false`); otherwise the
dates are sorted, `earliest` is the first and `latest` the last, and the
probe succeeds when `earliest <= target_date <= latest` (inclusive). -/
def page_has_target (dates_on : Int → List Int) (target_date page_num : Int) : Bool :=
  let dates := dates_on page_num
  if dates.isEmpty then false
  else
    let sorted := List.insertionSort (fun a b : Int => a ≤ b) dates
    let earliest := sorted.headD 0
    let latest := sorted.getLastD 0
    decide (earliest ≤ target_date ∧ target_date ≤ latest)

/-- Transcription of `find_page_for_date` (lines 177-213): walk pages
downward from `start_page`; a probe that fails `page_has_target` (failed
fetch, no parsable dates, or range missing the target) just continues with
the next lower page; a probe that passes returns its page number at once.
Fuel = `max_pages_to_check`, matching
`range(start_page, start_page - max_pages_to_check, -1)`. -/
def find_page_for_date (dates_on : Int → List Int) (target_date : Int) :
    Int → Nat → Option Int
  | _, 0 => none
  | page_num, m + 1 =>
    if page_has_target dates_on target_date page_num then some page_num
    else find_page_for_date dates_on target_date (page_num - 1) m

/-- The pages `find_page_for_date` probes, in probe order: the strictly
descending enumeration
`start_page, start_page - 1, ..., start_page - max_pages_to_check + 1`. -/
def probe_pages : Int → Nat → List Int
  | _, 0 => []
  | start_page, m + 1 => start_page :: probe_pages (start_page - 1) m

theorem find_page_for_date_succ (dates_on : Int → List Int) (target_date page_num : Int)
    (m : Nat) :
    find_page_for_date dates_on target_date page_num (m + 1)
      = if page_has_target dates_on target_date page_num then some page_num
        else find_page_for_date dates_on target_date (page_num - 1) m := rfl

/-- C2: `find_page_for_date` probes pages in strictly descending order
`start_page, start_page - 1, ..., start_page - max_pages_to_check + 1`,
skips (without terminating) every probed page that yields zero timestamps
or whose inclusive date range misses the target, returns the first probed
page whose range brackets the target, and returns `none` when no probe in
the budget does. All of this is the statement that the result is the first
element of `probe_pages` satisfying `page_has_target`. -/
theorem find_page_for_date_eq_first_probe (dates_on : Int → List Int)
    (target_date start_page : Int) (max_pages_to_check : Nat) :
    find_page_for_date dates_on target_date start_page max_pages_to_check
      = (probe_pages start_page max_pages_to_check).find?
          (page_has_target dates_on target_date) := by
  induction max_pages_to_check generalizing start_page with
  | zero => rfl
  | succ m ih =>
    rw [find_page_for_date_succ, probe_pages]
    cases h : page_has_target dates_on target_date start_page <;>
      simp [List.find?, h, ih]

theorem find_page_for_date_eq_some_iff (dates_on : Int → List Int) (target_date : Int)
    (m : Nat) : ∀ (start_page p : Int),
    find_page_for_date dates_on target_date start_page m = some p ↔
      (page_has_target dates_on target_date p = true
        ∧ start_page - (m : Int) < p ∧ p ≤ start_page
        ∧ ∀ q : Int, p < q → q ≤ start_page →
            page_has_target dates_on target_date q = false) := by
  induction m with
  | zero =>
    intro s p
    constructor
    · intro h
      cases h
    · rintro ⟨-, h1, h2, -⟩
      exfalso
      omega
  | succ m ih =>
    intro s p
    rw [find_page_for_date_succ]
    by_cases h : page_has_target dates_on target_date s = true
    · rw [if_pos h]
      constructor
      · intro he
        have hps : p = s := (Option.some_inj.mp he).symm
        subst hps
        refine ⟨h, by push_cast; omega, le_refl p, fun q hq1 hq2 => ?_⟩
        exfalso
        omega
      · rintro ⟨hbr, -, h2, hall⟩
        rcases lt_or_eq_of_le h2 with hlt | heq
        · exact absurd h (by simp [hall s hlt (le_refl s)])
        · rw [heq]
    · rw [if_neg h]
      rw [ih (s - 1) p]
      constructor
      · rintro ⟨hbr, h1, h2, hall⟩
        refine ⟨hbr, by push_cast at h1 ⊢; omega, by omega, fun q hq1 hq2 => ?_⟩
        rcases lt_or_eq_of_le hq2 with hlt | heq
        · exact hall q hq1 (by omega)
        · rw [heq]
          exact Bool.not_eq_true _ |>.mp h
      · rintro ⟨hbr, h1, h2, hall⟩
        have hps : p ≠ s := by
          intro he
          rw [he] at hbr
          exact h hbr
        refine ⟨hbr, by push_cast at h1 ⊢; omega, by omega, fun q hq1 hq2 => ?_⟩
        exact hall q hq1 (by omega)

/-! ## Start-page resolution of `scrape_time_period` (lines 693-711)

`scrape_time_period` resolves the page it scrapes from: a hardcoded start
page is used verbatim; otherwise it calls `find_page_for_date` starting
from `search_start_page` when that hint is given and from `last_page_num`
otherwise, always with `max_pages_to_check=200`. -/

/-- Transcription of the start-page resolution in `scrape_time_period`
(lines 693-711). -/
def scrape_start_page (dates_on : Int → List Int) (target_date last_page_num : Int)
    (hardcoded_start_page search_start_page : Option Int) : Option Int :=
  match hardcoded_start_page with
  | some p => some p
  | none =>
    let search_from := search_start_page.getD last_page_num
    find_page_for_date dates_on target_date search_from 200

/-- Synthetic forum for the C3 counterexample: pages 1..201 exist and page
`p` holds posts dated `2p` and `2p+1`, so page dates are strictly monotone
in the page number. -/
def counterexample_dates (p : Int) : List Int :=
  if 1 ≤ p ∧ p ≤ 201 then [2 * p, 2 * p + 1] else []

/-- C3 counterexample: with last page 201, the 30-day window W1 (target
date 400) resolves to start page 200; reusing that page as the search hint
for the nested 90-day window W2 (target date 2, same end boundary, page
dates monotone) yields start page 1, while the unhinted W2 search returns
`none` — its 200-probe budget `201..2` never reaches page 1. The hint
therefore changes the result of the search. -/
theorem hint_changes_search_result :
    scrape_start_page counterexample_dates 400 201 none none = some 200
      ∧ scrape_start_page counterexample_dates 2 201 none (some 200) = some 1
      ∧ scrape_start_page counterexample_dates 2 201 none none = none
      ∧ ¬(scrape_start_page counterexample_dates 2 201 none (some 200)
            = scrape_start_page counterexample_dates 2 201 none none) := by
  refine ⟨by decide, by decide, by decide, by decide⟩

/-- C3 amended: the search hint never changes a successful unhinted
search. If the unhinted window scrape (searching from `last_page_num`)
resolves start page `p`, then seeding the search with any hint between `p`
and `last_page_num` — in particular the start page found for a nested
shorter window, which lies in that range when pages are date-monotone —
resolves the same start page `p`. (When the unhinted search exhausts its
200-probe budget and fails, the hint can shift the probe window low enough
to succeed instead, which is the behavior the counterexample exhibits.) -/
theorem hint_preserves_successful_search (dates_on : Int → List Int)
    (target_date last_page_num hint p : Int)
    (hfound : scrape_start_page dates_on target_date last_page_num none none = some p)
    (hp : p ≤ hint) (hl : hint ≤ last_page_num) :
    scrape_start_page dates_on target_date last_page_num none (some hint) = some p := by
  have hfound2 :
      find_page_for_date dates_on target_date last_page_num 200 = some p := hfound
  obtain ⟨hbr, h1, h2, hall⟩ :=
    (find_page_for_date_eq_some_iff dates_on target_date 200 last_page_num p).mp hfound2
  show find_page_for_date dates_on target_date hint 200 = some p
  refine (find_page_for_date_eq_some_iff dates_on target_date 200 hint p).mpr
    ⟨hbr, by omega, hp, fun q hq1 hq2 => hall q hq1 (by omega)⟩

/-- Synthetic forum for the C3 witness: only page 5 has posts, dated 1
and 2. -/
def witness_dates (p : Int) : List Int :=
  if p = 5 then [1, 2] else []

/-- Witness for C3's amended theorem at a concrete forum, target date,
last page and hint. -/
theorem hint_preserves_successful_search_witness :
    (scrape_start_page witness_dates 1 7 none none = some 5
        ∧ (5 : Int) ≤ 6 ∧ (6 : Int) ≤ 7)
      ∧ scrape_start_page witness_dates 1 7 none (some 6) = some 5 :=
  ⟨⟨by decide, by decide, by decide⟩,
    hint_preserves_successful_search witness_dates 1 7 6 5 (by decide) (by decide) (by decide)⟩

/-! ## Record extractor (`extract_combinations`, lines 215-273)

The source matches the pattern
`([A-Za-z]+(?:[ \t]+[A-Za-z]+)*)[ \t]+(\d+-\d+)([A-Za-z]+(?:[ \t]+[A-Za-z]+)*?)(?=\s*(?:\n|$|,|\())`
with `re.findall(..., re.MULTILINE)` over the text of each post body.
For this particular pattern the Python backtracking search is
deterministic, which the embedding exploits:

* a first/third-field word is always a maximal `[A-Za-z]` run — ending a
  word early puts a letter right where `[ \t]+` or the lookahead is
  required, so every shorter split fails;
* the first field takes the maximal space/tab-separated word chain —
  dropping trailing words puts a letter where `\d` is required;
* the separator and digit runs are likewise maximal — leaving a space
  where a digit is required or a digit where `-`/`[A-Za-z]` is required
  fails;
* only the third field's lazy word-list repetition explores: it grows one
  word at a time until the lookahead holds, and fails for good when no
  space/tab+word unit can extend it.

The lookahead `\s*(?:\n|$|,|\()` (with `$` in MULTILINE mode) holds
exactly when the whitespace run at the position contains a newline, or the
first character after the run is `,` or `(`, or the run reaches the end of
the text. `re.findall` tries every start position left to right and
resumes after each match end. Recursions carry a fuel argument so that
they are structural and evaluate in the kernel; every step consumes at
least one character, so fuel = input length + 1 never runs out. -/

/-- The `[ \t]` character class of the pattern. -/
def isSpaceTab (c : Char) : Bool := c = ' ' || c = '\t'

/-- Python `\s` on ASCII text: space, tab, newline, carriage return,
vertical tab, form feed. -/
def isPySpace (c : Char) : Bool :=
  c = ' ' || c = '\t' || c = '\n' || c = '\r' || c = '\x0b' || c = '\x0c'

/-- Greedy `(?:[ \t]+[A-Za-z]+)*` continuation of the first field: consume
further space/tab-separated alphabetic words while possible. Returns the
consumed characters (separators included, as the capture group keeps them)
and the rest. -/
def g1_chain : Nat → List Char → List Char × List Char
  | 0, rest => ([], rest)
  | fuel + 1, rest =>
    let t := rest.takeWhile isSpaceTab
    let rest1 := rest.drop t.length
    let w := rest1.takeWhile Char.isAlpha
    if t.isEmpty || w.isEmpty then ([], rest)
    else
      let p := g1_chain fuel (rest1.drop w.length)
      (t ++ w ++ p.1, p.2)

/-- The lookahead `(?=\s*(?:\n|$|,|\())` at a position. -/
def lookahead_ok (s : List Char) : Bool :=
  let ws := s.takeWhile isPySpace
  let after := s.drop ws.length
  ws.contains '\n' || after.isEmpty || after.headD ' ' = ',' || after.headD ' ' = '('

/-- Lazy `(?:[ \t]+[A-Za-z]+)*?` continuation of the third field followed
by the lookahead: accept the accumulated words as soon as the lookahead
holds, otherwise extend by one space/tab+word unit, failing when none is
available. -/
def g3_loop : Nat → List Char → List Char → Option (List Char × List Char)
  | 0, _, _ => none
  | fuel + 1, acc, rest =>
    if lookahead_ok rest then some (acc, rest)
    else
      let t := rest.takeWhile isSpaceTab
      let rest1 := rest.drop t.length
      let w := rest1.takeWhile Char.isAlpha
      if t.isEmpty || w.isEmpty then none
      else g3_loop fuel (acc ++ t ++ w) (rest1.drop w.length)

/-- One anchored match attempt of the pattern at the head of `s`. Returns
the three capture groups and the rest of the text after the match (the
lookahead consumes nothing). -/
def match_at (s : List Char) : Option ((List Char × List Char × List Char) × List Char) :=
  let w0 := s.takeWhile Char.isAlpha
  if w0.isEmpty then none
  else
    let r0 := s.drop w0.length
    let c := g1_chain r0.length r0
    let g1 := w0 ++ c.1
    let sep := c.2.takeWhile isSpaceTab
    if sep.isEmpty then none
    else
      let r2 := c.2.drop sep.length
      let d1 := r2.takeWhile Char.isDigit
      if d1.isEmpty then none
      else
        let r3 := r2.drop d1.length
        match r3 with
        | '-' :: r4 =>
          let d2 := r4.takeWhile Char.isDigit
          if d2.isEmpty then none
          else
            let r5 := r4.drop d2.length
            let w1 := r5.takeWhile Char.isAlpha
            if w1.isEmpty then none
            else
              match g3_loop (r5.length + 1) w1 (r5.drop w1.length) with
              | some p => some ((g1, d1 ++ '-' :: d2, p.1), p.2)
              | none => none
        | _ => none

/-- Model of `re.findall(pattern, text, re.MULTILINE)`: try a match at
every position left to right, resuming after the end of each match. -/
def find_all_matches : Nat → List Char → List (List Char × List Char × List Char)
  | 0, _ => []
  | fuel + 1, s =>
    match match_at s with
    | some gr => gr.1 :: find_all_matches fuel gr.2
    | none =>
      match s with
      | [] => []
      | _ :: rest => find_all_matches fuel rest

/-- Model of Python `str.strip()` on ASCII text. -/
def py_strip (l : List Char) : List Char :=
  ((l.dropWhile isPySpace).reverse.dropWhile isPySpace).reverse

/-- The `if translations: part3 = translate_suffix(part3, translations)`
step (lines 255-257); with an empty table the part is left as is, which
`translate_suffix` would also do. -/
def translated_part3 (translations : List (String × String)) (part3 : String) : String :=
  if translations.isEmpty then part3 else translate_suffix part3 translations

/-- The per-match body of the `for match in matches` loop (lines 250-271):
strip each part, translate the third when a translation table was given,
remove the space characters from each part, and keep the triple only when
all parts are nonempty and free of line breaks. -/
def process_match (translations : List (String × String))
    (m : List Char × List Char × List Char) : Option (String × String × String) :=
  let part1 := String.mk (py_strip m.1)
  let part2 := String.mk (py_strip m.2.1)
  let part3 := String.mk (py_strip m.2.2)
  let part3t := translated_part3 translations part3
  let p1 := String.mk (part1.data.filter (fun c => c ≠ ' '))
  let p2 := String.mk (part2.data.filter (fun c => c ≠ ' '))
  let p3 := String.mk (part3t.data.filter (fun c => c ≠ ' '))
  if p1 ≠ "" ∧ p2 ≠ "" ∧ p3 ≠ "" then
    if ¬p1.data.contains '\n' ∧ ¬p2.data.contains '\n' ∧ ¬p3.data.contains '\n' then
      some (p1, p2, p3)
    else none
  else none

/-- Transcription of `extract_combinations` (lines 215-273) on the text of
one content block (one post body, or the whole page in the fallback; the
DOM traversal itself is the out-of-scope HTML collaborator). -/
def extract_combinations (text : String) (translations : List (String × String)) :
    List (String × String × String) :=
  (find_all_matches (text.data.length + 1) text.data).filterMap (process_match translations)


/-- C1 counterexample: on the spec's own example of two records separated
only by whitespace on one line, the extractor does not yield two triples —
it yields one. Inside a line the lookahead terminator never fires after
the first record's third field, so the first record is not matched at all;
its trailing bit letters are instead absorbed by the greedy first field of
a later match. -/
theorem extract_adjacent_records_not_two :
    ¬((extract_combinations "PhoenixWing 1-60R WizardRod 1-60Hexa" []).length = 2) := by
  decide

/-- C1 amended: for the post text "PhoenixWing 1-60R WizardRod 1-60Hexa"
(two records separated only by whitespace on one line) the extractor
yields exactly one triple, ("RWizardRod", "1-60", "Hexa"): the first
record is dropped and its bit "R" is merged into the second record's blade
by the greedy first-field word chain. -/
theorem extract_adjacent_records_merged_trailing :
    extract_combinations "PhoenixWing 1-60R WizardRod 1-60Hexa" []
      = [("RWizardRod", "1-60", "Hexa")] := by
  decide

/-- C7: on the same two records separated by a newline, extraction yields
exactly the two expected triples, and no produced part spans the newline
(none contains a line break). -/
theorem extract_two_lines_two_triples :
    extract_combinations "PhoenixWing 1-60R\nWizardRod 1-60Hexa" []
        = [("PhoenixWing", "1-60", "R"), ("WizardRod", "1-60", "Hexa")]
      ∧ ∀ c ∈ extract_combinations "PhoenixWing 1-60R\nWizardRod 1-60Hexa" [],
          c.1.data.contains '\n' = false ∧ c.2.1.data.contains '\n' = false
            ∧ c.2.2.data.contains '\n' = false := by
  constructor
  · decide
  · decide

theorem contains_filter_ne (l : List Char) (a : Char) :
    (l.filter (fun c => c ≠ a)).contains a = false := by
  rw [Bool.eq_false_iff]
  intro hcon
  simp [List.contains] at hcon

/-- C6 amended: every triple produced by `extract_combinations` has all
three parts nonempty, free of space characters, and free of line breaks,
and arises from a raw pattern match by stripping each part, translating
the stripped third part (when a table was given), and then removing the
space characters — so the third field goes through translation before
finalization. (Interior tab characters are not removed — see the
counterexample — so the parts need not be single contiguous tokens.) -/
theorem extract_parts_clean (text : String) (translations : List (String × String))
    (c : String × String × String) (hc : c ∈ extract_combinations text translations) :
    (c.1 ≠ "" ∧ c.2.1 ≠ "" ∧ c.2.2 ≠ "")
      ∧ (c.1.data.contains ' ' = false ∧ c.2.1.data.contains ' ' = false
          ∧ c.2.2.data.contains ' ' = false)
      ∧ (c.1.data.contains '\n' = false ∧ c.2.1.data.contains '\n' = false
          ∧ c.2.2.data.contains '\n' = false)
      ∧ ∃ m ∈ find_all_matches (text.data.length + 1) text.data,
          c.1 = String.mk ((py_strip m.1).filter (fun ch => ch ≠ ' '))
            ∧ c.2.1 = String.mk ((py_strip m.2.1).filter (fun ch => ch ≠ ' '))
            ∧ c.2.2 = String.mk
                ((translated_part3 translations
                    (String.mk (py_strip m.2.2))).data.filter (fun ch => ch ≠ ' ')) := by
  obtain ⟨m, hm, hpm⟩ := List.mem_filterMap.mp hc
  simp only [process_match] at hpm
  split at hpm
  case isTrue hA =>
    split at hpm
    case isTrue hB =>
      have hceq := Option.some_inj.mp hpm
      subst hceq
      refine ⟨⟨hA.1, hA.2.1, hA.2.2⟩, ⟨?_, ?_, ?_⟩,
        ⟨by simpa using hB.1, by simpa using hB.2.1, by simpa using hB.2.2⟩,
        m, hm, rfl, rfl, rfl⟩
      · exact contains_filter_ne _ ' '
      · exact contains_filter_ne _ ' '
      · exact contains_filter_ne _ ' '
    case isFalse hB => exact Option.noConfusion hpm
  case isFalse hA => exact Option.noConfusion hpm

/-- Witness for C6's amended theorem at a concrete text and triple. -/
theorem extract_parts_clean_witness :
    (("PhoenixWing", "1-60", "R") ∈ extract_combinations "PhoenixWing 1-60R" [])
      ∧ ((("PhoenixWing" : String) ≠ "" ∧ ("1-60" : String) ≠ "" ∧ ("R" : String) ≠ "")
          ∧ ("PhoenixWing".data.contains ' ' = false ∧ "1-60".data.contains ' ' = false
              ∧ "R".data.contains ' ' = false)
          ∧ ("PhoenixWing".data.contains '\n' = false ∧ "1-60".data.contains '\n' = false
              ∧ "R".data.contains '\n' = false)
          ∧ ∃ m ∈ find_all_matches ("PhoenixWing 1-60R".data.length + 1)
                "PhoenixWing 1-60R".data,
              ("PhoenixWing" : String)
                  = String.mk ((py_strip m.1).filter (fun ch => ch ≠ ' '))
                ∧ ("1-60" : String) = String.mk ((py_strip m.2.1).filter (fun ch => ch ≠ ' '))
                ∧ ("R" : String) = String.mk ((translated_part3 []
                      (String.mk (py_strip m.2.2))).data.filter (fun ch => ch ≠ ' '))) :=
  ⟨by decide,
    extract_parts_clean "PhoenixWing 1-60R" [] ("PhoenixWing", "1-60", "R") (by decide)⟩

/-- C6 counterexample: interior tab characters survive the cleanup — only
space characters are removed (`replace(' ', '')`) — so an extracted field
need not be a single contiguous token. Here the blade field keeps a tab. -/
theorem extract_keeps_tab_inside_part :
    extract_combinations "Phoenix\tWing 1-60R" [] = [("Phoenix\tWing", "1-60", "R")]
      ∧ ("Phoenix\tWing" : String).data.contains '\t' = true := by
  constructor
  · decide
  · decide

/-! ## Aggregation (`generate_combination_counts`, lines 384-424)

`collections.Counter(combinations)` is a dict keyed by the distinct
triples in first-occurrence order, mapping each to its number of
occurrences; `sorted(counter.items(), key=lambda x: x[1], reverse=True)`
is a stable descending sort on the count, so ties keep first-occurrence
order. The CSV reading and writing around it are out-of-scope
serialization; the model takes the row list directly. -/

/-- Distinct elements of a list in first-occurrence order — the iteration
order of a Python dict or `Counter` built from the list. -/
def first_occurrences {α : Type} [DecidableEq α] : List α → List α → List α
  | _, [] => []
  | seen, a :: l =>
    if a ∈ seen then first_occurrences seen l
    else a :: first_occurrences (a :: seen) l

/-- The items of `collections.Counter(l)` in iteration order. -/
def counter_items {α : Type} [DecidableEq α] (l : List α) : List (α × Nat) :=
  (first_occurrences [] l).map (fun a => (a, l.count a))

/-- The order used by `sorted(..., key=lambda x: x[1], reverse=True)`:
by count, descending. -/
def count_ge {α : Type} (a b : α × Nat) : Prop := b.2 ≤ a.2

instance count_ge_decidable {α : Type} : DecidableRel (@count_ge α) :=
  fun a b => inferInstanceAs (Decidable (b.2 ≤ a.2))

instance count_ge_total {α : Type} : IsTotal (α × Nat) count_ge :=
  ⟨fun a b => le_total b.2 a.2⟩

instance count_ge_trans {α : Type} : IsTrans (α × Nat) count_ge :=
  ⟨fun _ _ _ h1 h2 => le_trans h2 h1⟩

/-- Transcription of the counting and sorting of
`generate_combination_counts` (lines 410-422): count full triples, then
sort descending by count. `List.insertionSort` with `count_ge` is a stable
descending sort — each element is inserted before the first
earlier-placed element of smaller or equal count — matching Python's
stable `sorted(..., reverse=True)`. -/
def generate_combination_counts (rows : List (String × String × String)) :
    List ((String × String × String) × Nat) :=
  List.insertionSort count_ge (counter_items rows)

/-- C8: the triple-count report is sorted descending by count, with the
deterministic tie-break of first-occurrence order; on the spec's example
input the report is exactly
`[(("A","1-1","X"), 2), (("B","2-2","Y"), 1)]`, and on a two-way tie the
first-seen triple stays first. -/
theorem generate_combination_counts_sorted :
    (∀ rows : List (String × String × String),
        List.Sorted count_ge (generate_combination_counts rows))
      ∧ generate_combination_counts
            [("A", "1-1", "X"), ("A", "1-1", "X"), ("B", "2-2", "Y")]
          = [(("A", "1-1", "X"), 2), (("B", "2-2", "Y"), 1)]
      ∧ generate_combination_counts [("B", "2-2", "Y"), ("A", "1-1", "X")]
          = [(("B", "2-2", "Y"), 1), (("A", "1-1", "X"), 1)] :=
  ⟨fun rows => List.sorted_insertionSort count_ge (counter_items rows),
    by decide, by decide⟩

/-! ## Harvest orchestrator (`scrape_multiple_pages`, lines 275-310) -/

/-- Python `range(start_page, actual_end_page + 1)`: the ascending page
numbers of the scraping window, empty when the window is inverted. -/
def page_range (start_page end_page : Int) : List Int :=
  (List.range (end_page + 1 - start_page).toNat).map (fun i => start_page + (i : Int))

/-- Transcription of the scraping loop of `scrape_multiple_pages`
(lines 297-310): fetch each page of the window in ascending order, extract
and accumulate when the fetch returned content, skip the page otherwise.
`fetch` is the `fetch_page` collaborator (`""` = failure). The
`end_page == "last"` resolution (lines 288-295) happens before this loop
by calling `get_last_page_number`, part of the out-of-scope transport. -/
def scrape_multiple_pages (fetch : Int → String) (translations : List (String × String))
    (start_page end_page : Int) : List (String × String × String) :=
  (page_range start_page end_page).foldl
    (fun acc page_num =>
      let html := fetch page_num
      if html ≠ "" then acc ++ extract_combinations html translations else acc)
    []

theorem scrape_loop_eq (fetch : Int → String) (translations : List (String × String))
    (pages : List Int) (acc : List (String × String × String)) :
    pages.foldl
        (fun acc page_num =>
          let html := fetch page_num
          if html ≠ "" then acc ++ extract_combinations html translations else acc)
        acc
      = acc ++ (pages.filter (fun p => fetch p ≠ "")).flatMap
          (fun p => extract_combinations (fetch p) translations) := by
  have hfun :
      (fun (acc : List (String × String × String)) page_num =>
          let html := fetch page_num
          if html ≠ "" then acc ++ extract_combinations html translations else acc)
        = fun acc page_num =>
            if fetch page_num = "" then acc
            else acc ++ extract_combinations (fetch page_num) translations := by
    funext acc page_num
    by_cases h : fetch page_num = "" <;> simp [h]
  rw [hfun]
  induction pages generalizing acc with
  | nil => simp
  | cons p rest ih =>
    rw [List.foldl_cons]
    by_cases h : fetch p = ""
    · simp [h, ih, List.filter_cons]
    · simp [h, ih, List.filter_cons, List.append_assoc]

/-- C9: a fetch failure for an individual page of the window is non-fatal:
the page contributes nothing and the loop continues, so the result is
exactly the concatenation of the per-page extractions over the
successfully fetched pages, in ascending page order. -/
theorem scrape_multiple_pages_skips_failed_fetches (fetch : Int → String)
    (translations : List (String × String)) (start_page end_page : Int) :
    scrape_multiple_pages fetch translations start_page end_page
      = ((page_range start_page end_page).filter (fun p => fetch p ≠ "")).flatMap
          (fun p => extract_combinations (fetch p) translations) := by
  rw [scrape_multiple_pages]
  simpa using scrape_loop_eq fetch translations (page_range start_page end_page) []
